import Mathlib

/-!
Shallow embedding of `meetup_api_rsvp.py` (samchan2022/booking-robot) and
verification of the spec's claims about it.

Conventions of the embedding:
* Python dict/list/JSON values are modelled by the inductive `Json`;
  `dict[k]`, `dict.get(k)`, `dict.get(k, d)` and Python truthiness are
  modelled by `pyIndex`, `pyGet`, `pyGetD` and `Json.truthy`.
* Python exceptions are modelled by `Except PyErr`.
* Wall-clock timestamps are rationals (seconds since the Unix epoch);
  `time.time()` is the explicit parameter `timeNow`.  Parsed `datetime`
  instants are integer epoch seconds (the Meetup strings carry whole
  seconds).  The host timezone is the explicit parameter
  `localOffSeconds` (a fixed UTC offset; DST is out of scope).
* Functions keep the names of the Python functions they embed.
-/

namespace Meetup

/-- Python exception kinds arising in the modelled code paths. -/
inductive PyErr where
  | typeErr (msg : String)
  | valueErr (msg : String)
  | keyErr (msg : String)
  | attributeErr (msg : String)
deriving DecidableEq, Repr

/-- JSON-like Python values (the shapes flowing through the script:
API responses, event nodes, RSVP results). -/
inductive Json where
  | null
  | bool (b : Bool)
  | int (n : Int)
  | str (s : String)
  | arr (items : List Json)
  | obj (fields : List (String × Json))
deriving Repr

/-- Python truthiness of a `Json` value (`None`, `0`, `""`, `[]`, `{}`
are falsy). -/
def Json.truthy : Json → Bool
  | .null => false
  | .bool b => b
  | .int n => n != 0
  | .str s => s.length != 0
  | .arr xs => !xs.isEmpty
  | .obj fs => !fs.isEmpty

/-- First binding of a key in a field list (Python dicts have unique keys;
for lists with duplicates the first occurrence wins). -/
def lookupField : List (String × Json) → String → Option Json
  | [], _ => none
  | (k, v) :: fs, key => if k = key then some v else lookupField fs key

/-- Python `obj[key]`: `KeyError` when missing, `TypeError` when `obj` is
not a dict. -/
def pyIndex (j : Json) (key : String) : Except PyErr Json :=
  match j with
  | .obj fs =>
    match lookupField fs key with
    | some v => .ok v
    | none => .error (.keyErr key)
  | _ => .error (.typeErr "object is not subscriptable")

/-- Python `obj.get(key)`: `None` when missing, `AttributeError` when
`obj` is not a dict. -/
def pyGet (j : Json) (key : String) : Except PyErr (Option Json) :=
  match j with
  | .obj fs => .ok (lookupField fs key)
  | _ => .error (.attributeErr "get")

/-- Python `obj.get(key, default)`. -/
def pyGetD (j : Json) (key : String) (dflt : Json) : Except PyErr Json :=
  match j with
  | .obj fs => .ok ((lookupField fs key).getD dflt)
  | _ => .error (.attributeErr "get")

/-- Python `str.lower()` on the ASCII subset, over a character list. -/
def lowerChars (cs : List Char) : List Char := cs.map Char.toLower

/-- Python substring containment `needle in hay` for strings: `needle`
occurs contiguously in `hay`. -/
def containsSubstring (needle hay : List Char) : Bool :=
  hay.tails.any (fun t => needle.isPrefixOf t)

/-- Case-insensitive containment `a.lower() in b.lower()` as used at
src line 140. -/
def containsLower (needle hay : String) : Bool :=
  containsSubstring (lowerChars needle.toList) (lowerChars hay.toList)

/-- Python `str.strip()` (drop leading and trailing whitespace). -/
def stripChars (cs : List Char) : List Char :=
  ((cs.dropWhile Char.isWhitespace).reverse.dropWhile Char.isWhitespace).reverse

/-- Python `s.replace("Z", "+00:00")`: every occurrence of `Z`, left to
right (src line 61). -/
def replaceZChars : List Char → List Char
  | [] => []
  | c :: cs =>
    if c = 'Z' then '+' :: '0' :: '0' :: ':' :: '0' :: '0' :: replaceZChars cs
    else c :: replaceZChars cs

/-- Python (timezone-aware or naive) datetime at second precision, as
produced by `datetime.fromisoformat` on Meetup date strings. -/
structure PyDatetime where
  year : Nat
  month : Nat
  day : Nat
  hour : Nat
  minute : Nat
  second : Nat
  tzOffsetMinutes : Option Int
deriving DecidableEq, Repr

/-- Numeric value of an ASCII digit. -/
def digitVal (c : Char) : Option Nat :=
  if c.isDigit then some (c.toNat - 48) else none

/-- Read exactly `n` ASCII digits, accumulating their value. -/
def readDigits : Nat → Nat → List Char → Option (Nat × List Char)
  | 0, acc, cs => some (acc, cs)
  | n + 1, acc, c :: cs =>
    match digitVal c with
    | some d => readDigits n (acc * 10 + d) cs
    | none => none
  | _ + 1, _, [] => none

/-- Consume one expected character. -/
def expectChar (c : Char) : List Char → Option (List Char)
  | x :: xs => if x = c then some xs else none
  | [] => none

/-- Gregorian leap-year rule. -/
def isLeapYear (y : Nat) : Bool := (y % 4 == 0 && y % 100 != 0) || y % 400 == 0

/-- Number of days of a month. -/
def daysInMonth (y m : Nat) : Nat :=
  if m = 2 then (if isLeapYear y then 29 else 28)
  else if m = 4 ∨ m = 6 ∨ m = 9 ∨ m = 11 then 30
  else 31

/-- Parse a `(+|-)HH:MM` timezone suffix into offset minutes. -/
def readTzOffset (sign : Char) (cs : List Char) : Option (Int × List Char) := do
  let sgn : Int ← if sign = '+' then some 1 else if sign = '-' then some (-1) else none
  let (oh, cs) ← readDigits 2 0 cs
  let cs ← expectChar ':' cs
  let (om, cs) ← readDigits 2 0 cs
  if oh ≤ 23 ∧ om ≤ 59 then some (sgn * ((oh : Int) * 60 + om), cs) else none

/-- Modelled from the spec and CPython: `datetime.fromisoformat` on the
subset `YYYY-MM-DD[(T| )HH:MM[:SS][(+|-)HH:MM]]` (the shapes the Meetup
API emits after the `Z` rewrite; fractional seconds are outside the
modelled subset).  Returns `none` exactly on strings the model regards
as unparseable (CPython raises `ValueError` there). -/
def fromisoformatChars (cs : List Char) : Option PyDatetime := do
  let (y, cs) ← readDigits 4 0 cs
  let cs ← expectChar '-' cs
  let (mo, cs) ← readDigits 2 0 cs
  let cs ← expectChar '-' cs
  let (d, cs) ← readDigits 2 0 cs
  if ¬ (1 ≤ y ∧ 1 ≤ mo ∧ mo ≤ 12 ∧ 1 ≤ d ∧ d ≤ daysInMonth y mo) then none
  else
    match cs with
    | [] => some ⟨y, mo, d, 0, 0, 0, none⟩
    | sep :: cs =>
      if ¬ (sep = 'T' ∨ sep = ' ') then none
      else do
        let (hh, cs) ← readDigits 2 0 cs
        let cs ← expectChar ':' cs
        let (mi, cs) ← readDigits 2 0 cs
        let (ss, cs) ←
          match cs with
          | ':' :: rest =>
            match readDigits 2 0 rest with
            | some (s2, rest2) => some (s2, rest2)
            | none => none
          | other => some (0, other)
        if ¬ (hh ≤ 23 ∧ mi ≤ 59 ∧ ss ≤ 59) then none
        else
          match cs with
          | [] => some ⟨y, mo, d, hh, mi, ss, none⟩
          | sign :: rest => do
            let (off, rest2) ← readTzOffset sign rest
            if rest2 = [] then some ⟨y, mo, d, hh, mi, ss, some off⟩ else none

/-- Embedding of `parse_iso_datetime` (src lines 58-62): a non-string
raises `TypeError`; the string is stripped, `Z` is rewritten to
`+00:00`, and an unparseable result raises `ValueError`. -/
def parse_iso_datetime (v : Json) : Except PyErr PyDatetime :=
  match v with
  | .str s =>
    match fromisoformatChars (replaceZChars (stripChars s.toList)) with
    | some dt => .ok dt
    | none => .error (.valueErr "Invalid isoformat string")
  | _ => .error (.typeErr "Expected string")

/-- Days from 1970-01-01 to the civil date `y-m-d` (valid for `y ≥ 1`;
Hinnant's `days_from_civil`). -/
def daysFromCivil (y m d : Nat) : Int :=
  let yAdj := if m ≤ 2 then y - 1 else y
  let era := yAdj / 400
  let yoe := yAdj % 400
  let mp := (m + 9) % 12
  let doy := (153 * mp + 2) / 5 + (d - 1)
  let doe := yoe * 365 + yoe / 4 - yoe / 100 + doy
  ((era * 146097 + doe : Nat) : Int) - 719468

/-- UTC instant (epoch seconds) of a parsed datetime after
`.astimezone(timezone.utc)` (src line 139): an aware datetime keeps its
instant; a naive one is interpreted in the host timezone
`localOffSeconds`. -/
def PyDatetime.utcEpochSeconds (localOffSeconds : Int) (dt : PyDatetime) : Int :=
  daysFromCivil dt.year dt.month dt.day * 86400
    + dt.hour * 3600 + dt.minute * 60 + dt.second
    - (match dt.tzOffsetMinutes with
       | some m => m * 60
       | none => localOffSeconds)

/-- Python `datetime.weekday()` of a UTC instant given as epoch seconds:
Monday is `0`, Sunday is `6`. -/
def pyWeekday (t : Int) : Int := (t.fdiv 86400 + 3).emod 7

/-- Embedding of `now_corrected` (src lines 73-74): local wall clock
`timeNow` advanced by the NTP drift, as a UTC instant. -/
def now_corrected (drift_seconds timeNow : ℚ) : ℚ := timeNow + drift_seconds

/-- Python `str.lower()` as a string-to-string map (ASCII subset). -/
def lowerStr (s : String) : String := ⟨lowerChars s.toList⟩

/-- Day-name table of `find_next_event` (src line 131). -/
def daysMap (s : String) : Option Nat :=
  if s = "mon" then some 0 else if s = "tue" then some 1
  else if s = "wed" then some 2 else if s = "thu" then some 3
  else if s = "fri" then some 4 else if s = "sat" then some 5
  else if s = "sun" then some 6 else none

/-- Extract and parse a node's start datetime, normalised to a UTC
instant in epoch seconds (src line 139). -/
def dtUtcOf (localOffSeconds : Int) (node : Json) : Except PyErr Int :=
  match pyIndex node "dateTime" with
  | .error e => .error e
  | .ok v =>
    match parse_iso_datetime v with
    | .error e => .error e
    | .ok dt => .ok (dt.utcEpochSeconds localOffSeconds)

/-- Extract a node's title as a string (src line 140; `.lower()` on a
non-string raises `AttributeError`). -/
def titleOf (node : Json) : Except PyErr String :=
  match pyIndex node "title" with
  | .error e => .error e
  | .ok (.str s) => .ok s
  | .ok _ => .error (.attributeErr "lower")

/-- One iteration of the `find_next_event` filter loop (src lines
137-141): yields `some (dt, node)` exactly when the event qualifies. -/
def processEvent (localOffSeconds : Int) (target_day : Nat) (title_sub : String)
    (start_date : ℚ) (event : Json) : Except PyErr (Option (Int × Json)) :=
  match pyIndex event "node" with
  | .error e => .error e
  | .ok node =>
    match dtUtcOf localOffSeconds node with
    | .error e => .error e
    | .ok dt =>
      match titleOf node with
      | .error e => .error e
      | .ok title =>
        if containsLower title_sub title = true ∧ pyWeekday dt = (target_day : Int)
            ∧ start_date ≤ (dt : ℚ) then
          .ok (some (dt, node))
        else .ok none

/-- Effectful map over a list, first raise wins (the `for` loop of src
lines 137-141). -/
def exceptMapM {α β : Type} (f : α → Except PyErr β) : List α → Except PyErr (List β)
  | [] => .ok []
  | x :: xs =>
    match f x with
    | .error e => .error e
    | .ok y =>
      match exceptMapM f xs with
      | .error e => .error e
      | .ok ys => .ok (y :: ys)

/-- The `weekday_events` list of `find_next_event` (src lines 136-141):
qualifying `(datetime, node)` pairs in input order. -/
def filteredEntries (localOffSeconds : Int) (events : List Json) (target_day : Nat)
    (title_sub : String) (start_date : ℚ) : Except PyErr (List (Int × Json)) :=
  match exceptMapM (processEvent localOffSeconds target_day title_sub start_date) events with
  | .error e => .error e
  | .ok l => .ok l.reduceOption

/-- Insert into a key-sorted list, before the first strictly larger key
(so earlier entries stay before later entries with an equal key). -/
def insertByKey (x : Int × Json) : List (Int × Json) → List (Int × Json)
  | [] => [x]
  | y :: ys => if x.1 ≤ y.1 then x :: y :: ys else y :: insertByKey x ys

/-- Stable sort by the datetime key (Python `list.sort(key=...)`, src
line 144; any stable sort by key produces the same list, so insertion
sort matches Timsort's output). -/
def sortByKey : List (Int × Json) → List (Int × Json)
  | [] => []
  | x :: xs => insertByKey x (sortByKey xs)

/-- First entry with the minimal key: the spec's "earliest start time,
ties broken by list order". -/
def firstMin : List (Int × Json) → Option (Int × Json)
  | [] => none
  | x :: xs =>
    match firstMin xs with
    | none => some x
    | some m => if m.1 < x.1 then some m else some x

/-- Embedding of `find_next_event` (src lines 128-145). -/
def find_next_event (localOffSeconds : Int) (events : List Json)
    (day_of_week title_sub : String) (drift_seconds : ℚ)
    (min_days_from_now : Int) (timeNow : ℚ) : Except PyErr (Option Json) :=
  let start_date := now_corrected drift_seconds timeNow + (min_days_from_now : ℚ) * 86400
  match daysMap (lowerStr day_of_week) with
  | none => .error (.valueErr "Invalid day_of_week")
  | some target_day =>
    match filteredEntries localOffSeconds events target_day title_sub start_date with
    | .error e => .error e
    | .ok entries =>
      match sortByKey entries with
      | [] => .ok none
      | (_, node) :: _ => .ok (some node)

/-- Local broken-down time as the wait gate reads it: the local civil
day (as days since the epoch, standing for `tm_year/tm_mon/tm_mday`)
plus the local hour and minute. -/
structure Tm where
  dayIndex : Int
  tm_hour : Int
  tm_min : Int
deriving DecidableEq, Repr

/-- Python `time.localtime` under a fixed host UTC offset (no DST). -/
def pyLocaltime (localOffSeconds : Int) (t : ℚ) : Tm :=
  let s : Int := ⌊t⌋ + localOffSeconds
  let d : Int := s / 86400
  let r : Int := s % 86400
  { dayIndex := d, tm_hour := r / 3600, tm_min := (r % 3600) / 60 }

/-- Python `time.mktime` of a broken-down local time on civil day
`dayIndex` (fixed host UTC offset, no DST). -/
def pyMktime (localOffSeconds dayIndex hh mm ss : Int) : Int :=
  dayIndex * 86400 + hh * 3600 + mm * 60 + ss - localOffSeconds

/-- Embedding of `wait_until_minute_range_target_time` (src lines
76-103).  Returns `some w` when the gate sleeps `w` seconds before
returning, `none` when it returns immediately because the current
minute is outside the arming window. -/
def wait_until_minute_range_target_time (localOffSeconds : Int)
    (start_minute end_minute : Int) (target_hour : Option Int)
    (target_minute : Int) (margin_seconds drift_seconds timeNow : ℚ) :
    Option ℚ :=
  let now_corr : ℚ := timeNow + drift_seconds
  let localTm := pyLocaltime localOffSeconds now_corr
  let current_min := localTm.tm_min
  let current_hour := localTm.tm_hour
  if start_minute ≤ current_min ∧ current_min ≤ end_minute then
    let tgt_min := target_minute % 60
    let next_hour :=
      match target_hour with
      | some th => th % 24
      | none => if current_min ≥ tgt_min then (current_hour + 1) % 24 else current_hour
    let target0 : ℚ :=
      (pyMktime localOffSeconds localTm.dayIndex next_hour tgt_min 0 : ℚ) + margin_seconds
    let target_timestamp := if target0 ≤ now_corr then target0 + 24 * 3600 else target0
    some (target_timestamp - now_corr)
  else
    none

/-- Minute-of-hour of corrected now, as the wait gate reads it. -/
def currentMinute (localOffSeconds : Int) (drift_seconds timeNow : ℚ) : Int :=
  (pyLocaltime localOffSeconds (timeNow + drift_seconds)).tm_min

/-- Retry-policy constants of the script (src lines 38-41). -/
def MIN_ATTEMPTS : Nat := 2

/-- Maximum attempts constant (src line 40). -/
def MAX_ATTEMPTS : Nat := 3

/-- Python `errors = rsvp_data.get("errors") or []` (src line 195):
a missing or falsy value is replaced by the empty list. -/
def errorsValue (errOpt : Option Json) : Json :=
  match errOpt with
  | some j => if j.truthy then j else .arr []
  | none => .arr []

/-- Python `rsvp_status = rsvp_info.get("status") if rsvp_info else None`
(src line 196): a falsy `rsvp_info` (missing or empty) yields `None`;
`.get` on a truthy non-dict raises. -/
def statusValue (rsvp_info : Option Json) : Except PyErr (Option Json) :=
  match rsvp_info with
  | some info => if info.truthy then pyGet info "status" else .ok none
  | none => .ok none

/-- Result inspection of one attempt (src lines 193-196): computes
`(rsvp_status, errors_value)` with Python's `.get` defaulting and
truthiness tests, raising where the Python would. -/
def inspectResult (result : Json) : Except PyErr (Option Json × Json) :=
  match pyGetD result "data" (.obj []) with
  | .error e => .error e
  | .ok data0 =>
    match pyGetD data0 "rsvp" (.obj []) with
    | .error e => .error e
    | .ok rsvp_data =>
      match pyGet rsvp_data "rsvp" with
      | .error e => .error e
      | .ok rsvp_info =>
        match pyGet rsvp_data "errors" with
        | .error e => .error e
        | .ok errOpt =>
          match statusValue rsvp_info with
          | .error e => .error e
          | .ok st => .ok (st, errorsValue errOpt)

/-- Python `any(err.get("code") == "too_few_spots" for err in errors)`
(src line 198), with the generator's short-circuit raising behaviour. -/
def anyTooFew : List Json → Except PyErr Bool
  | [] => .ok false
  | err :: rest =>
    match pyGet err "code" with
    | .error e => .error e
    | .ok c =>
      match c with
      | some (.str s) => if s = "too_few_spots" then .ok true else anyTooFew rest
      | _ => anyTooFew rest

/-- Full inspection of one attempt's result (src lines 193-198): `true`
means the transient `too_few_spots` code was present (retry), `false`
means the loop breaks.  Iterating a truthy non-list `errors` value
raises (the exception kind of that corner is collapsed to one case). -/
def attemptStep (result : Json) : Except PyErr Bool :=
  match inspectResult result with
  | .error e => .error e
  | .ok (_, errorsVal) =>
    match errorsVal with
    | .arr errs => anyTooFew errs
    | _ => .error (.typeErr "errors is not iterable as dicts")

/-- Terminal outcome of the booking attempt loop: `succeeded` is the
`break` exit (spec state SUCCEEDED, regardless of logical booking
success), `exhausted` the while-else exit (spec state EXHAUSTED),
`errored` an exception propagating to the top-level handler. -/
inductive LoopOutcome where
  | succeeded
  | exhausted
  | errored (e : PyErr)
deriving DecidableEq, Repr

/-- The attempt loop of `main` (src lines 184-206), parameterised by the
budget, the per-check deadline test `deadlineOk n` (whether
`now_corrected < end_time` held when the `while` condition was evaluated
with `attempts = n`) and the per-attempt results `results n` (the RSVP
response of attempt number `n`, counted from 1; in dry-run mode the
constant synthesised `DRY_RUN` result).  `fuel` is a structural bound on
the remaining iterations; `attemptLoopRun` supplies fuel exceeding the
largest possible iteration count, making the `fuel = 0` branch
unreachable from it. -/
def loopGo (minA maxA : Nat) (deadlineOk : Nat → Bool) (results : Nat → Json) :
    Nat → Nat → LoopOutcome × Nat
  | 0, attempts => (.exhausted, attempts)
  | fuel + 1, attempts =>
    if attempts < minA ∨ (deadlineOk attempts = true ∧ attempts < maxA) then
      match attemptStep (results (attempts + 1)) with
      | .error e => (.errored e, attempts + 1)
      | .ok true => loopGo minA maxA deadlineOk results fuel (attempts + 1)
      | .ok false => (.succeeded, attempts + 1)
    else (.exhausted, attempts)

/-- The attempt loop started at `attempts = 0` with sufficient fuel,
returning the terminal outcome and the final value of `attempts`. -/
def attemptLoopRun (minA maxA : Nat) (deadlineOk : Nat → Bool)
    (results : Nat → Json) : LoopOutcome × Nat :=
  loopGo minA maxA deadlineOk results (max minA maxA + 1) 0

/-- The synthesised dry-run result (src line 190). -/
def dryRunResult : Json :=
  .obj [("data", .obj [("rsvp", .obj [("rsvp", .obj [("status", .str "DRY_RUN")]),
                                      ("errors", .arr [])])])]

/-- A response carrying only the transient error code (src line 198). -/
def tooFewSpotsResult : Json :=
  .obj [("data", .obj [("rsvp", .obj [("rsvp", .null),
                                      ("errors", .arr [.obj [("code", .str "too_few_spots")]])])])]

/-- A response whose RSVP succeeded with no errors. -/
def plainYesResult : Json :=
  .obj [("data", .obj [("rsvp", .obj [("rsvp", .obj [("status", .str "YES")]),
                                      ("errors", .arr [])])])]

/-- A response with a non-transient error code. -/
def hardFailResult : Json :=
  .obj [("data", .obj [("rsvp", .obj [("rsvp", .null),
                                      ("errors", .arr [.obj [("code", .str "event_full")]])])])]

/-- A response that has the outer `data`/`rsvp` structure but no inner
`rsvp` key, only a transient error entry. -/
def resultNoRsvpKey : Json :=
  .obj [("data", .obj [("rsvp", .obj [("errors", .arr [.obj [("code", .str "too_few_spots")]])])])]

/-- A response whose `data.rsvp` object lacks the `errors` key. -/
def resultNoErrorsKey : Json :=
  .obj [("data", .obj [("rsvp", .obj [("rsvp", .obj [("status", .str "YES")])])])]

/-- Concrete event node for the selector witnesses: a Tuesday-evening
run club session (2026-10-20 is a Tuesday). -/
def wNodeRun : Json :=
  .obj [("id", .str "e1"), ("title", .str "Weekly Run Club"),
        ("dateTime", .str "2026-10-20T18:00:00Z")]

/-- The witness event wrapping `wNodeRun`. -/
def wEventRun : Json := .obj [("node", wNodeRun)]

/-- A second qualifying node with the same start instant as `wNodeRun`,
for the tie-breaking witness. -/
def wNodeLate : Json :=
  .obj [("id", .str "e2"), ("title", .str "Evening Run"),
        ("dateTime", .str "2026-10-20T18:00:00Z")]

/-- The witness event wrapping `wNodeLate`. -/
def wEventLate : Json := .obj [("node", wNodeLate)]

/-- Test of an `Except` outcome being a raised `ValueError`. -/
def isValueErr {α : Type} : Except PyErr α → Bool
  | .error (.valueErr _) => true
  | _ => false

/-- Invariant of the attempt loop: when it takes the while-else exit
(EXHAUSTED) having started with enough fuel, at least `minA` attempts
have been made — the loop condition `attempts < MIN_ATTEMPTS or ...`
cannot be false earlier. -/
theorem loopGo_exhausted_min (minA maxA : Nat) (d : Nat → Bool) (r : Nat → Json)
    (fuel : Nat) : ∀ attempts, minA ≤ fuel + attempts →
    (loopGo minA maxA d r fuel attempts).1 = .exhausted →
    minA ≤ (loopGo minA maxA d r fuel attempts).2 := by
  induction fuel with
  | zero => intro a h _; simpa [loopGo] using h
  | succ fuel ih =>
    intro a h hex
    simp only [loopGo] at hex ⊢
    by_cases hc : a < minA ∨ (d a = true ∧ a < maxA)
    · rw [if_pos hc] at hex ⊢
      cases hstep : attemptStep (r (a + 1)) with
      | error e => rw [hstep] at hex; simp at hex
      | ok b =>
        cases b with
        | false => rw [hstep] at hex; simp at hex
        | true => rw [hstep] at hex; exact ih (a + 1) (by omega) hex
    · rw [if_neg hc] at hex ⊢
      simp only [not_or, Nat.not_lt] at hc
      simpa using hc.1

/-- Invariant of the attempt loop: the attempts counter never moves past
`max minA maxA`, because the loop condition forces
`attempts < minA ∨ attempts < maxA` before each increment. -/
theorem loopGo_le (minA maxA : Nat) (d : Nat → Bool) (r : Nat → Json)
    (fuel : Nat) : ∀ attempts, attempts ≤ max minA maxA →
    (loopGo minA maxA d r fuel attempts).2 ≤ max minA maxA := by
  induction fuel with
  | zero => intro a h; simpa [loopGo] using h
  | succ fuel ih =>
    intro a h
    simp only [loopGo]
    by_cases hc : a < minA ∨ (d a = true ∧ a < maxA)
    · rw [if_pos hc]
      have ha1 : a + 1 ≤ max minA maxA := by
        rcases hc with h1 | h2
        · omega
        · omega
      cases hstep : attemptStep (r (a + 1)) with
      | error e => exact ha1
      | ok b =>
        cases b with
        | false => exact ha1
        | true => exact ih (a + 1) ha1
    · rw [if_neg hc]; simpa using h

/-- When every attempt's result carries the transient code, the loop can
end only through its while-else exit. -/
theorem loopGo_all_transient (minA maxA : Nat) (d : Nat → Bool) (r : Nat → Json)
    (htrans : ∀ n, attemptStep (r n) = .ok true) (fuel : Nat) :
    ∀ attempts, (loopGo minA maxA d r fuel attempts).1 = .exhausted := by
  induction fuel with
  | zero => intro a; rfl
  | succ fuel ih =>
    intro a
    simp only [loopGo]
    by_cases hc : a < minA ∨ (d a = true ∧ a < maxA)
    · rw [if_pos hc, htrans (a + 1)]
      exact ih (a + 1)
    · rw [if_neg hc]

/-- C2 (amended).  The claim as stated ("regardless of the per-attempt
results, the loop never stops before the minimum number of attempts") is
refuted by `attempt_loop_min_attempts_counterexample`: a non-transient
result breaks the loop immediately, even before `minimum_attempts`.
What the code guarantees is: (1) the loop condition never terminates the
run (EXHAUSTED outcome) with fewer than `minimum_attempts` attempts, and
(2) whenever every attempt yields a transient-code result, at least
`minimum_attempts` attempts are performed, even if the deadline has
already passed before the first attempt (`deadlineOk` identically
false included). -/
theorem attempt_loop_min_attempts (minA maxA : Nat) (deadlineOk : Nat → Bool)
    (results : Nat → Json) :
    ((attemptLoopRun minA maxA deadlineOk results).1 = .exhausted →
      minA ≤ (attemptLoopRun minA maxA deadlineOk results).2) ∧
    ((∀ n, attemptStep (results n) = .ok true) →
      minA ≤ (attemptLoopRun minA maxA deadlineOk results).2) := by
  constructor
  · intro hex
    exact loopGo_exhausted_min minA maxA deadlineOk results (max minA maxA + 1) 0
      (by omega) hex
  · intro htrans
    exact loopGo_exhausted_min minA maxA deadlineOk results (max minA maxA + 1) 0
      (by omega)
      (loopGo_all_transient minA maxA deadlineOk results htrans (max minA maxA + 1) 0)

/-- Witness for C2 (amended): with the script's budget `{min 2, max 3}`,
the deadline already past and every response transient, the loop still
performs at least 2 attempts. -/
theorem attempt_loop_min_attempts_witness :
    2 ≤ (attemptLoopRun 2 3 (fun _ => false) (fun _ => tooFewSpotsResult)).2 :=
  (attempt_loop_min_attempts 2 3 (fun _ => false) (fun _ => tooFewSpotsResult)).2
    (fun _ => rfl)

/-- Counterexample to C2 as stated: with `MIN_ATTEMPTS = 2`, a first
response with no transient error (here a clean success) stops the loop
after a single attempt, before the minimum number of attempts. -/
theorem attempt_loop_min_attempts_counterexample :
    attemptLoopRun MIN_ATTEMPTS MAX_ATTEMPTS (fun _ => true) (fun _ => plainYesResult)
      = (.succeeded, 1) ∧ (1 : Nat) < MIN_ATTEMPTS :=
  ⟨rfl, by norm_num [MIN_ATTEMPTS]⟩

/-- C3: with `minimum_attempts ≤ maximum_attempts` the attempt total
never exceeds `maximum_attempts`, whatever the remaining time budget;
and once at least `minimum_attempts` attempts are made and the deadline
check fails (corrected now at or past the deadline), the loop refuses to
start a new attempt and ends EXHAUSTED on the spot. -/
theorem attempt_loop_max_attempts (minA maxA : Nat) (deadlineOk : Nat → Bool)
    (results : Nat → Json) (hle : minA ≤ maxA) :
    (attemptLoopRun minA maxA deadlineOk results).2 ≤ maxA ∧
    (∀ fuel a, minA ≤ a → deadlineOk a = false →
      loopGo minA maxA deadlineOk results fuel a = (.exhausted, a)) := by
  constructor
  · have := loopGo_le minA maxA deadlineOk results (max minA maxA + 1) 0 (Nat.zero_le _)
    simpa [attemptLoopRun, Nat.max_eq_right hle] using this
  · intro fuel a hmin hdl
    cases fuel with
    | zero => rfl
    | succ fuel =>
      simp only [loopGo]
      rw [if_neg (by simp [hdl]; omega)]

/-- Witness for C3: the script's budget `{min 2, max 3}` with an
already-expired deadline and transient responses: the run makes 2 ≤ 3
attempts, and from the state `attempts = 2` with the deadline past the
loop immediately ends EXHAUSTED. -/
theorem attempt_loop_max_attempts_witness :
    (attemptLoopRun 2 3 (fun _ => false) (fun _ => tooFewSpotsResult)).2 ≤ 3 ∧
    loopGo 2 3 (fun _ => false) (fun _ => tooFewSpotsResult) 4 2 = (.exhausted, 2) :=
  ⟨(attempt_loop_max_attempts 2 3 (fun _ => false) (fun _ => tooFewSpotsResult)
      (by omega)).1,
   (attempt_loop_max_attempts 2 3 (fun _ => false) (fun _ => tooFewSpotsResult)
      (by omega)).2 4 2 (by omega) rfl⟩

/-- C4: whenever the loop condition admits an attempt and that attempt's
result contains no error with the transient `too_few_spots` code
(success, hard failure, or any other error code — `attemptStep` returns
`ok false`), the loop breaks immediately after the attempt with no
further attempts; and only a result carrying the transient code makes
the loop wait and go round again. -/
theorem attempt_loop_stops_on_non_transient (minA maxA : Nat) (deadlineOk : Nat → Bool)
    (results : Nat → Json) (fuel a : Nat)
    (hcond : a < minA ∨ (deadlineOk a = true ∧ a < maxA)) :
    (attemptStep (results (a + 1)) = .ok false →
      loopGo minA maxA deadlineOk results (fuel + 1) a = (.succeeded, a + 1)) ∧
    (attemptStep (results (a + 1)) = .ok true →
      loopGo minA maxA deadlineOk results (fuel + 1) a
        = loopGo minA maxA deadlineOk results fuel (a + 1)) := by
  constructor <;> intro hstep <;> simp only [loopGo] <;> rw [if_pos hcond, hstep]

/-- Witness for C4: on the very first attempt (budget `{min 2, max 3}`),
a clean success stops the loop at one attempt, while a transient
response makes it continue. -/
theorem attempt_loop_stops_on_non_transient_witness :
    loopGo 2 3 (fun _ => true) (fun _ => plainYesResult) 4 0 = (.succeeded, 1) ∧
    loopGo 2 3 (fun _ => true) (fun _ => tooFewSpotsResult) 4 0
      = loopGo 2 3 (fun _ => true) (fun _ => tooFewSpotsResult) 3 1 :=
  ⟨(attempt_loop_stops_on_non_transient 2 3 (fun _ => true) (fun _ => plainYesResult)
      3 0 (Or.inl (by omega))).1 rfl,
   (attempt_loop_stops_on_non_transient 2 3 (fun _ => true) (fun _ => tooFewSpotsResult)
      3 0 (Or.inl (by omega))).2 rfl⟩

/-- Counterexample to C1 as stated: attempts budget `{min 2, max 3}`,
deadline already past before the first attempt, every response carrying
the transient code — the loop performs exactly 2 attempts (not 3) and
ends EXHAUSTED: once the minimum is satisfied, the expired deadline bars
any further attempt. -/
theorem attempt_loop_scenario_counterexample :
    attemptLoopRun MIN_ATTEMPTS MAX_ATTEMPTS (fun _ => false) (fun _ => tooFewSpotsResult)
      = (.exhausted, 2) ∧ (2 : Nat) ≠ 3 :=
  ⟨rfl, by omega⟩

/-- C1 (amended): attempts budget `{min 2, max 3}`, wall-clock deadline
already past at every check, first two responses carrying the transient
code — the loop performs exactly 2 attempts total and ends EXHAUSTED
(minimum satisfied at 2; the expired deadline bars a third attempt
despite the transient retry). -/
theorem attempt_loop_scenario (deadlineOk : Nat → Bool) (results : Nat → Json)
    (hdl : ∀ n, deadlineOk n = false)
    (h1 : attemptStep (results 1) = .ok true)
    (h2 : attemptStep (results 2) = .ok true) :
    attemptLoopRun MIN_ATTEMPTS MAX_ATTEMPTS deadlineOk results = (.exhausted, 2) := by
  simp [attemptLoopRun, MIN_ATTEMPTS, MAX_ATTEMPTS, loopGo, h1, h2, hdl]

/-- Witness for C1 (amended), at the concrete transient response. -/
theorem attempt_loop_scenario_witness :
    attemptLoopRun MIN_ATTEMPTS MAX_ATTEMPTS (fun _ => false)
      (fun _ => tooFewSpotsResult) = (.exhausted, 2) :=
  attempt_loop_scenario (fun _ => false) (fun _ => tooFewSpotsResult)
    (fun _ => rfl) rfl rfl

/-- Counterexample to C10 as stated: a result whose `data.rsvp` object
lacks only the `errors` key reports the present status `"YES"`, not an
absent one; and a result whose `data.rsvp` object lacks only the inner
`rsvp` key but carries a transient error entry is retried — the loop
does not terminate after that attempt (here it runs to exhaustion at 3
attempts). -/
theorem inspect_missing_keys_counterexample :
    inspectResult resultNoErrorsKey = .ok (some (.str "YES"), .arr []) ∧
    (some (Json.str "YES") : Option Json).isSome = true ∧
    attemptStep resultNoRsvpKey = .ok true ∧
    attemptLoopRun 2 3 (fun _ => true) (fun _ => resultNoRsvpKey) = (.exhausted, 3) :=
  ⟨rfl, rfl, rfl, rfl⟩

/-- C10 (amended): each missing piece of the result defaults
independently and inspection does not raise on account of a missing
key.  (1) A result object without `"data"` yields an absent status, an
empty error list, and a non-retryable attempt (the loop breaks).
(2) If `data.rsvp` is an object without the inner `"rsvp"` key, the
status is absent (whatever the error list holds).  (3) If `data.rsvp`
is an object whose `"errors"` key is missing or holds the empty list,
the error list is treated as empty and, whenever inspection completes,
the attempt is non-retryable. -/
theorem inspect_missing_keys (rfs dfs rsfs : List (String × Json)) :
    (lookupField rfs "data" = none →
      inspectResult (.obj rfs) = .ok (none, .arr []) ∧
      attemptStep (.obj rfs) = .ok false) ∧
    (lookupField rfs "data" = some (.obj dfs) →
      lookupField dfs "rsvp" = some (.obj rsfs) →
      lookupField rsfs "rsvp" = none →
      ∃ ev, inspectResult (.obj rfs) = .ok (none, ev)) ∧
    (lookupField rfs "data" = some (.obj dfs) →
      lookupField dfs "rsvp" = some (.obj rsfs) →
      (lookupField rsfs "errors" = none ∨ lookupField rsfs "errors" = some (.arr [])) →
      ∀ st ev, inspectResult (.obj rfs) = .ok (st, ev) →
        ev = .arr [] ∧ attemptStep (.obj rfs) = .ok false) := by
  refine ⟨?_, ?_, ?_⟩
  · intro h
    have hins : inspectResult (.obj rfs) = .ok (none, .arr []) := by
      simp [inspectResult, pyGetD, pyGet, statusValue, errorsValue, h, lookupField]
    exact ⟨hins, by simp [attemptStep, hins, anyTooFew]⟩
  · intro h1 h2 h3
    refine ⟨errorsValue (lookupField rsfs "errors"), ?_⟩
    simp [inspectResult, pyGetD, pyGet, statusValue, h1, h2, h3]
  · intro h1 h2 herr st ev heq
    have herrval : errorsValue (lookupField rsfs "errors") = Json.arr [] := by
      rcases herr with h | h <;> simp [errorsValue, h, Json.truthy]
    simp only [inspectResult, pyGetD, pyGet, Option.getD, h1, h2, herrval] at heq
    cases hsv : statusValue (lookupField rsfs "rsvp") with
    | error e => rw [hsv] at heq; simp at heq
    | ok st2 =>
      rw [hsv] at heq
      have hpair : st2 = st ∧ Json.arr [] = ev := by
        injection heq with h'
        exact ⟨congrArg Prod.fst h', congrArg Prod.snd h'⟩
      obtain ⟨hst, hev⟩ := hpair
      have hins : inspectResult (.obj rfs) = .ok (st, .arr []) := by
        simp only [inspectResult, pyGetD, pyGet, Option.getD, h1, h2, herrval]
        rw [hsv, hst]
      exact ⟨hev.symm, by simp [attemptStep, hins, anyTooFew]⟩

/-- Witness for C10 (amended): the three parts at concrete results —
a result without `"data"`, the result missing the inner `"rsvp"` key,
and the result missing the `"errors"` key. -/
theorem inspect_missing_keys_witness :
    (inspectResult (.obj [("x", Json.null)]) = .ok (none, .arr []) ∧
      attemptStep (.obj [("x", Json.null)]) = .ok false) ∧
    (∃ ev, inspectResult resultNoRsvpKey = .ok (none, ev)) ∧
    (Json.arr [] = Json.arr [] ∧ attemptStep resultNoErrorsKey = .ok false) :=
  ⟨(inspect_missing_keys [("x", Json.null)] [] []).1 rfl,
   (inspect_missing_keys
      [("data", .obj [("rsvp", .obj [("errors", .arr [.obj [("code", .str "too_few_spots")]])])])]
      [("rsvp", .obj [("errors", .arr [.obj [("code", .str "too_few_spots")]])])]
      [("errors", .arr [.obj [("code", .str "too_few_spots")]])]).2.1 rfl rfl rfl,
   (inspect_missing_keys
      [("data", .obj [("rsvp", .obj [("rsvp", .obj [("status", .str "YES")])])])]
      [("rsvp", .obj [("rsvp", .obj [("status", .str "YES")])])]
      [("rsvp", .obj [("status", .str "YES")])]).2.2 rfl rfl (Or.inl rfl)
      (some (.str "YES")) (.arr []) rfl⟩

/-- Counterexample to C8 as stated: a non-string event date (the
integer `0`) makes the parser raise a `TypeError`, not a value error. -/
theorem parse_iso_datetime_counterexample :
    parse_iso_datetime (Json.int 0) = .error (.typeErr "Expected string") ∧
    isValueErr (parse_iso_datetime (Json.int 0)) = false :=
  ⟨rfl, rfl⟩

/-- C8 (amended): for every malformed event date the parser raises
rather than returning a result or skipping — a non-string value raises
a type error (not a value error), and a string the format model cannot
parse raises a value error. -/
theorem parse_iso_datetime_malformed (v : Json) :
    ((∀ s, v ≠ Json.str s) →
      parse_iso_datetime v = .error (.typeErr "Expected string")) ∧
    (∀ s, v = Json.str s →
      fromisoformatChars (replaceZChars (stripChars s.toList)) = none →
      parse_iso_datetime v = .error (.valueErr "Invalid isoformat string")) := by
  constructor
  · intro h
    cases v with
    | str s => exact absurd rfl (h s)
    | null => rfl
    | bool b => rfl
    | int n => rfl
    | arr xs => rfl
    | obj fs => rfl
  · rintro s rfl h
    have h' : fromisoformatChars (replaceZChars (stripChars s.data)) = none := h
    simp [parse_iso_datetime, h']

/-- Witness for C8 (amended): the non-string `0` raises the type error;
the unparseable string `"garbage"` raises the value error. -/
theorem parse_iso_datetime_malformed_witness :
    parse_iso_datetime (Json.int 0) = .error (.typeErr "Expected string") ∧
    parse_iso_datetime (Json.str "garbage") = .error (.valueErr "Invalid isoformat string") :=
  ⟨(parse_iso_datetime_malformed (Json.int 0)).1 (fun _ h => Json.noConfusion h),
   (parse_iso_datetime_malformed (Json.str "garbage")).2 "garbage" rfl rfl⟩

/-- Key to a positive sleep: the rolled-forward target stays strictly
above `now_corr` whenever the unrolled target is at least `base` and
`now_corr` lies below `base + 86400`. -/
theorem wait_pos_aux (t0 now_corr base : ℚ) (hbase : base ≤ t0)
    (hnow : now_corr < base + 86400) :
    0 < (if t0 ≤ now_corr then t0 + 24 * 3600 else t0) - now_corr := by
  by_cases h : t0 ≤ now_corr
  · rw [if_pos h]; linarith
  · rw [if_neg h]; push_neg at h; linarith

/-- Bounds on the wait gate's broken-down local time: the hour is
non-negative, and the instant lies strictly before the end of its local
civil day. -/
theorem pyLocaltime_bounds (localOff : Int) (t : ℚ) :
    0 ≤ (pyLocaltime localOff t).tm_hour ∧
    t < (((pyLocaltime localOff t).dayIndex * 86400 - localOff : Int) : ℚ) + 86400 := by
  simp only [pyLocaltime]
  constructor
  · exact Int.ediv_nonneg (Int.emod_nonneg _ (by norm_num)) (by norm_num)
  · have hfl : t < (⌊t⌋ : ℚ) + 1 := Int.lt_floor_add_one t
    have hint : ⌊t⌋ + 1 ≤ (⌊t⌋ + localOff) / 86400 * 86400 - localOff + 86400 := by
      omega
    have hcast : ((⌊t⌋ : Int) : ℚ) + 1
        ≤ (((⌊t⌋ + localOff) / 86400 * 86400 - localOff : Int) : ℚ) + 86400 := by
      exact_mod_cast hint
    linarith

/-- C7: the wait gate is a no-op (returns immediately, no sleep)
whenever the corrected-now minute-of-hour lies outside the inclusive
arming window; inside the window, with the spec's non-negative safety
margin, it always sleeps a strictly positive duration — in particular
the computed sleep is non-negative, and strictly positive when
`margin_seconds > 0` and the target is in the future.  (A target
already in the past is rolled forward by exactly 24 hours inside the
`if target0 ≤ now_corr` branch of the definition, which the proof
covers through `wait_pos_aux`.) -/
theorem wait_gate_window (localOffSeconds : Int)
    (start_minute end_minute : Int) (target_hour : Option Int) (target_minute : Int)
    (margin_seconds drift_seconds timeNow : ℚ) :
    (¬ (start_minute ≤ currentMinute localOffSeconds drift_seconds timeNow ∧
        currentMinute localOffSeconds drift_seconds timeNow ≤ end_minute) →
      wait_until_minute_range_target_time localOffSeconds start_minute end_minute
        target_hour target_minute margin_seconds drift_seconds timeNow = none) ∧
    (0 ≤ margin_seconds →
      start_minute ≤ currentMinute localOffSeconds drift_seconds timeNow →
      currentMinute localOffSeconds drift_seconds timeNow ≤ end_minute →
      ∃ w, wait_until_minute_range_target_time localOffSeconds start_minute end_minute
        target_hour target_minute margin_seconds drift_seconds timeNow = some w ∧
        0 < w) := by
  constructor
  · intro h
    simp only [wait_until_minute_range_target_time]
    rw [if_neg (by simpa [currentMinute] using h)]
  · intro hm h1 h2
    simp only [currentMinute] at h1 h2
    obtain ⟨hh, hday⟩ := pyLocaltime_bounds localOffSeconds (timeNow + drift_seconds)
    have htm : 0 ≤ target_minute % 60 := Int.emod_nonneg _ (by norm_num)
    have htmq : (0:ℚ) ≤ ((target_minute % 60 : Int) : ℚ) := by exact_mod_cast htm
    cases target_hour with
    | some th =>
      simp only [wait_until_minute_range_target_time]
      rw [if_pos ⟨h1, h2⟩]
      refine ⟨_, rfl, ?_⟩
      apply wait_pos_aux _ _
        ((((pyLocaltime localOffSeconds (timeNow + drift_seconds)).dayIndex * 86400
            - localOffSeconds : Int) : ℚ) + margin_seconds)
      · have hth : 0 ≤ th % 24 := Int.emod_nonneg _ (by norm_num)
        have hthq : (0:ℚ) ≤ ((th % 24 : Int) : ℚ) := by exact_mod_cast hth
        unfold pyMktime
        push_cast at hthq htmq ⊢
        linarith
      · linarith
    | none =>
      simp only [wait_until_minute_range_target_time]
      rw [if_pos ⟨h1, h2⟩]
      by_cases hcm : (pyLocaltime localOffSeconds (timeNow + drift_seconds)).tm_min
          ≥ target_minute % 60
      · rw [if_pos hcm]
        refine ⟨_, rfl, ?_⟩
        apply wait_pos_aux _ _
          ((((pyLocaltime localOffSeconds (timeNow + drift_seconds)).dayIndex * 86400
              - localOffSeconds : Int) : ℚ) + margin_seconds)
        · have hnh : 0 ≤ ((pyLocaltime localOffSeconds (timeNow + drift_seconds)).tm_hour
              + 1) % 24 := Int.emod_nonneg _ (by norm_num)
          have hnhq : (0:ℚ) ≤ ((((pyLocaltime localOffSeconds
              (timeNow + drift_seconds)).tm_hour + 1) % 24 : Int) : ℚ) := by
            exact_mod_cast hnh
          unfold pyMktime
          push_cast at hnhq htmq ⊢
          linarith
        · linarith
      · rw [if_neg hcm]
        refine ⟨_, rfl, ?_⟩
        apply wait_pos_aux _ _
          ((((pyLocaltime localOffSeconds (timeNow + drift_seconds)).dayIndex * 86400
              - localOffSeconds : Int) : ℚ) + margin_seconds)
        · have hhq : (0:ℚ) ≤ (((pyLocaltime localOffSeconds
              (timeNow + drift_seconds)).tm_hour : Int) : ℚ) := by exact_mod_cast hh
          unfold pyMktime
          push_cast at hhq htmq ⊢
          linarith
        · linarith

/-- Witness for C7 at a concrete instant: 00:57:00 UTC of day 0
(`timeNow = 3420`), zero drift and margin, window `[55, 59]` — the
current minute 57 lies inside the window and the gate sleeps a strictly
positive duration. -/
theorem wait_gate_window_witness :
    (0:ℚ) ≤ 0 ∧ (55:Int) ≤ currentMinute 0 0 3420 ∧ currentMinute 0 0 3420 ≤ 59 ∧
    ∃ w, wait_until_minute_range_target_time 0 55 59 none 0 0 0 3420 = some w ∧
      0 < w := by
  have hcm : currentMinute 0 0 3420 = 57 := by
    norm_num [currentMinute, pyLocaltime]
  refine ⟨le_refl 0, by rw [hcm]; norm_num, by rw [hcm]; norm_num, ?_⟩
  exact (wait_gate_window 0 55 59 none 0 0 0 3420).2 (le_refl 0)
    (by rw [hcm]; norm_num) (by rw [hcm]; norm_num)

/-- C9: the wait gate normalises out-of-range targets instead of
rejecting them — replacing `target_hour` by `target_hour % 24` and
`target_minute` by `target_minute % 60` leaves its behaviour unchanged
(so e.g. `target_minute = 60` behaves exactly like `target_minute = 0`),
because the definition only ever uses `target_hour % 24` and
`target_minute % 60`. -/
theorem wait_gate_normalises_targets (localOffSeconds : Int)
    (start_minute end_minute : Int) (target_hour : Option Int) (target_minute : Int)
    (margin_seconds drift_seconds timeNow : ℚ) :
    wait_until_minute_range_target_time localOffSeconds start_minute end_minute
        (target_hour.map (fun h => h % 24)) (target_minute % 60)
        margin_seconds drift_seconds timeNow
      = wait_until_minute_range_target_time localOffSeconds start_minute end_minute
        target_hour target_minute margin_seconds drift_seconds timeNow := by
  have h60 : target_minute % 60 % 60 = target_minute % 60 :=
    Int.emod_emod_of_dvd _ dvd_rfl
  cases target_hour with
  | none =>
    simp only [Option.map_none', wait_until_minute_range_target_time, h60]
  | some th =>
    have h24 : th % 24 % 24 = th % 24 := Int.emod_emod_of_dvd _ dvd_rfl
    simp only [Option.map_some', wait_until_minute_range_target_time, h24, h60]

/-- Membership is preserved by `insertByKey`. -/
theorem mem_insertByKey (x a : Int × Json) (l : List (Int × Json)) :
    a ∈ insertByKey x l ↔ a = x ∨ a ∈ l := by
  induction l with
  | nil => simp [insertByKey]
  | cons y ys ih =>
    simp only [insertByKey]
    by_cases hc : x.1 ≤ y.1
    · rw [if_pos hc]; simp [List.mem_cons]
    · rw [if_neg hc]; simp [List.mem_cons, ih]; tauto

/-- Membership is preserved by `sortByKey`. -/
theorem mem_sortByKey (a : Int × Json) (l : List (Int × Json)) :
    a ∈ sortByKey l ↔ a ∈ l := by
  induction l with
  | nil => simp [sortByKey]
  | cons x xs ih => simp [sortByKey, mem_insertByKey, ih, List.mem_cons]

/-- The head of the stable insertion sort is the first minimal entry. -/
theorem sortByKey_head_eq_firstMin (l : List (Int × Json)) :
    (sortByKey l).head? = firstMin l := by
  induction l with
  | nil => rfl
  | cons x xs ih =>
    simp only [sortByKey, firstMin]
    cases hsx : sortByKey xs with
    | nil =>
      have h1 : firstMin xs = none := by rw [← ih, hsx]; rfl
      rw [h1]
      rfl
    | cons p rest =>
      have h1 : firstMin xs = some p := by rw [← ih, hsx]; rfl
      rw [h1]
      by_cases hc : x.1 ≤ p.1
      · have hnp : ¬ p.1 < x.1 := by omega
        simp [insertByKey, hc, hnp]
      · have hp : p.1 < x.1 := by omega
        simp [insertByKey, hc, hp]

/-- `firstMin` returns `none` exactly on the empty list. -/
theorem firstMin_eq_none (l : List (Int × Json)) : firstMin l = none ↔ l = [] := by
  cases l with
  | nil => simp [firstMin]
  | cons x xs =>
    simp only [firstMin]
    cases firstMin xs with
    | none => simp
    | some m => by_cases h : m.1 < x.1 <;> simp [h]

/-- Characterisation of `firstMin`: it is an entry of the list whose key
is a lower bound of all keys, and every entry strictly before it in the
list has a strictly larger key. -/
theorem firstMin_spec (l : List (Int × Json)) :
    ∀ d n, firstMin l = some (d, n) →
    ∃ (i : Nat) (hi : i < l.length),
      l.get ⟨i, hi⟩ = (d, n) ∧ (∀ p ∈ l, d ≤ p.1) ∧
      (∀ j (hj : j < i), d < (l.get ⟨j, Nat.lt_trans hj hi⟩).1) := by
  induction l with
  | nil => intro d n h; simp [firstMin] at h
  | cons x xs ih =>
    intro d n h
    simp only [firstMin] at h
    split at h
    · rename_i hfm
      have hx : x = (d, n) := by injection h
      have hxs : xs = [] := (firstMin_eq_none xs).mp hfm
      subst hxs
      refine ⟨0, by simp, by simp [hx], ?_, ?_⟩
      · intro p hp
        have hpx : p = x := by simpa using hp
        subst hpx
        simp [hx]
      · intro j hj
        omega
    · rename_i m hfm
      by_cases hc : m.1 < x.1
      · rw [if_pos hc] at h
        have hm : m = (d, n) := by injection h
        have hd : m.1 = d := by rw [hm]
        obtain ⟨i, hi, hget, hmin, hstrict⟩ := ih d n (by rw [hfm, hm])
        refine ⟨i + 1, by simpa using hi, by simpa using hget, ?_, ?_⟩
        · intro p hp
          rcases List.mem_cons.mp hp with rfl | hp'
          · omega
          · exact hmin p hp'
        · intro j hj
          cases j with
          | zero =>
            simpa using (by omega : d < x.1)
          | succ j' =>
            have hj' : j' < i := Nat.lt_of_succ_lt_succ hj
            simpa using hstrict j' hj'
      · rw [if_neg hc] at h
        have hx : x = (d, n) := by injection h
        have hd : x.1 = d := by rw [hx]
        refine ⟨0, by simp, by simp [hx], ?_, ?_⟩
        · intro p hp
          rcases List.mem_cons.mp hp with rfl | hp'
          · omega
          · obtain ⟨dm, nm⟩ := m
            obtain ⟨i2, hi2, hget2, hmin2, hstrict2⟩ := ih dm nm hfm
            have h1 := hmin2 p hp'
            simp only [not_lt] at hc
            simp only at hc h1
            omega
        · intro j hj
          omega

/-- If the effectful map returns a list, every element of that list
comes from applying `f` to some input element. -/
theorem exceptMapM_ok_mem {α β : Type} (f : α → Except PyErr β) :
    ∀ (xs : List α) (l : List β), exceptMapM f xs = .ok l →
    ∀ b ∈ l, ∃ a ∈ xs, f a = .ok b := by
  intro xs
  induction xs with
  | nil =>
    intro l h b hb
    simp only [exceptMapM] at h
    injection h with h'
    subst h'
    simp at hb
  | cons x xs ih =>
    intro l h b hb
    simp only [exceptMapM] at h
    cases h1 : f x with
    | error e => rw [h1] at h; simp at h
    | ok y =>
      rw [h1] at h
      cases h2 : exceptMapM f xs with
      | error e => rw [h2] at h; simp at h
      | ok ys =>
        rw [h2] at h
        injection h with h'
        subst h'
        rcases List.mem_cons.mp hb with rfl | hb'
        · exact ⟨x, List.mem_cons_self x xs, h1⟩
        · obtain ⟨a, ha, hfa⟩ := ih ys h2 b hb'
          exact ⟨a, List.mem_cons_of_mem x ha, hfa⟩

/-- If a filter iteration keeps an event, the kept pair satisfies all
three selection conditions. -/
theorem processEvent_ok_some (localOff : Int) (td : Nat) (ts : String) (sd : ℚ)
    (ev : Json) (d : Int) (node : Json)
    (h : processEvent localOff td ts sd ev = .ok (some (d, node))) :
    dtUtcOf localOff node = .ok d ∧
    ∃ title, titleOf node = .ok title ∧ containsLower ts title = true ∧
      pyWeekday d = (td : Int) ∧ sd ≤ (d : ℚ) := by
  unfold processEvent at h
  split at h
  · exact absurd h (by simp)
  · rename_i nd h1
    split at h
    · exact absurd h (by simp)
    · rename_i dt h2
      split at h
      · exact absurd h (by simp)
      · rename_i title h3
        split at h
        · rename_i hc
          injection h with h'
          injection h' with h''
          have hdt : dt = d := congrArg Prod.fst h''
          have hnd : nd = node := congrArg Prod.snd h''
          subst hdt
          subst hnd
          exact ⟨h2, title, h3, hc.1, hc.2.1, hc.2.2⟩
        · exact absurd h (by simp)

/-- C5: whenever `find_next_event` returns an event node, the node's
title contains the required substring case-insensitively, its start
time normalised to UTC falls on the target weekday, and its start time
is at or after the floor date, corrected now plus `min_days_from_now`
days. -/
theorem find_next_event_sound (localOffSeconds : Int) (events : List Json)
    (day_of_week title_sub : String) (drift_seconds : ℚ) (min_days_from_now : Int)
    (timeNow : ℚ) (node : Json)
    (h : find_next_event localOffSeconds events day_of_week title_sub drift_seconds
        min_days_from_now timeNow = .ok (some node)) :
    ∃ (target_day : Nat) (dt : Int) (title : String),
      daysMap (lowerStr day_of_week) = some target_day ∧
      dtUtcOf localOffSeconds node = .ok dt ∧
      titleOf node = .ok title ∧
      containsLower title_sub title = true ∧
      pyWeekday dt = (target_day : Int) ∧
      now_corrected drift_seconds timeNow + (min_days_from_now : ℚ) * 86400 ≤ (dt : ℚ) := by
  simp only [find_next_event] at h
  split at h
  · exact absurd h (by simp)
  · rename_i td hdm
    split at h
    · exact absurd h (by simp)
    · rename_i entries hfe
      split at h
      · exact absurd h (by simp)
      · rename_i d0 n0 rest hs
        have hnode : n0 = node := by simpa using h
        subst hnode
        have hmem2 : (d0, n0) ∈ entries := by
          rw [← mem_sortByKey, hs]
          exact List.mem_cons_self _ _
        simp only [filteredEntries] at hfe
        cases hmap : exceptMapM (processEvent localOffSeconds td title_sub
            (now_corrected drift_seconds timeNow + (min_days_from_now : ℚ) * 86400))
            events with
        | error e => rw [hmap] at hfe; simp at hfe
        | ok lopt =>
          rw [hmap] at hfe
          have hent : lopt.reduceOption = entries := by injection hfe
          have hsome : some (d0, n0) ∈ lopt := by
            rw [← hent] at hmem2
            exact List.reduceOption_mem_iff.mp hmem2
          obtain ⟨ev, hev, hpe⟩ := exceptMapM_ok_mem _ events lopt hmap _ hsome
          obtain ⟨hdt, title, htl, hcl, hwd, hsd⟩ :=
            processEvent_ok_some _ _ _ _ _ _ _ hpe
          exact ⟨td, d0, title, hdm, hdt, htl, hcl, hwd, hsd⟩

/-- C6: whenever `find_next_event` returns an event node, that node is
the entry of the qualifying list (which preserves input order) with the
earliest start time, and every earlier qualifying entry has a strictly
later start time — so among equal start times the first in the input
list wins, and the choice is stable under reordering of equal-timestamp
entries. -/
theorem find_next_event_earliest (localOffSeconds : Int) (events : List Json)
    (day_of_week title_sub : String) (drift_seconds : ℚ) (min_days_from_now : Int)
    (timeNow : ℚ) (node : Json)
    (h : find_next_event localOffSeconds events day_of_week title_sub drift_seconds
        min_days_from_now timeNow = .ok (some node)) :
    ∃ (target_day : Nat) (l : List (Int × Json)) (i : Nat) (hi : i < l.length) (d : Int),
      daysMap (lowerStr day_of_week) = some target_day ∧
      filteredEntries localOffSeconds events target_day title_sub
        (now_corrected drift_seconds timeNow + (min_days_from_now : ℚ) * 86400) = .ok l ∧
      l.get ⟨i, hi⟩ = (d, node) ∧ (∀ p ∈ l, d ≤ p.1) ∧
      (∀ j (hj : j < i), d < (l.get ⟨j, Nat.lt_trans hj hi⟩).1) := by
  simp only [find_next_event] at h
  split at h
  · exact absurd h (by simp)
  · rename_i td hdm
    split at h
    · exact absurd h (by simp)
    · rename_i entries hfe
      split at h
      · exact absurd h (by simp)
      · rename_i d0 n0 rest hs
        have hnode : n0 = node := by simpa using h
        subst hnode
        have hfm : firstMin entries = some (d0, n0) := by
          rw [← sortByKey_head_eq_firstMin, hs]
          rfl
        obtain ⟨i, hi, hget, hmin, hstrict⟩ := firstMin_spec entries d0 n0 hfm
        exact ⟨td, entries, i, hi, d0, hdm, hfe, hget, hmin, hstrict⟩

/-- Shared evaluation for the selector witnesses: the witness event
qualifies under weekday `tue`, substring `run`, zero drift, zero floor
offset, at `timeNow = 0`. -/
theorem processEvent_wEventRun :
    processEvent 0 1 "run" (now_corrected 0 0 + ((0 : Int) : ℚ) * 86400) wEventRun
      = .ok (some (1792519200, wNodeRun)) := by
  simp only [processEvent,
    show pyIndex wEventRun "node" = .ok wNodeRun from rfl,
    show dtUtcOf 0 wNodeRun = .ok 1792519200 from rfl,
    show titleOf wNodeRun = .ok "Weekly Run Club" from rfl]
  rw [if_pos ⟨by decide, by decide, by norm_num [now_corrected]⟩]

/-- Shared evaluation for the tie-breaking witness: the second event
also qualifies, with the same start instant. -/
theorem processEvent_wEventLate :
    processEvent 0 1 "run" (now_corrected 0 0 + ((0 : Int) : ℚ) * 86400) wEventLate
      = .ok (some (1792519200, wNodeLate)) := by
  simp only [processEvent,
    show pyIndex wEventLate "node" = .ok wNodeLate from rfl,
    show dtUtcOf 0 wNodeLate = .ok 1792519200 from rfl,
    show titleOf wNodeLate = .ok "Evening Run" from rfl]
  rw [if_pos ⟨by decide, by decide, by norm_num [now_corrected]⟩]

/-- Witness for C5: on a one-event list the selector returns that
event, and the returned node satisfies all three selection
conditions. -/
theorem find_next_event_sound_witness :
    find_next_event 0 [wEventRun] "tue" "run" 0 0 0 = .ok (some wNodeRun) ∧
    ∃ (target_day : Nat) (dt : Int) (title : String),
      daysMap (lowerStr "tue") = some target_day ∧
      dtUtcOf 0 wNodeRun = .ok dt ∧
      titleOf wNodeRun = .ok title ∧
      containsLower "run" title = true ∧
      pyWeekday dt = (target_day : Int) ∧
      now_corrected 0 0 + ((0 : Int) : ℚ) * 86400 ≤ (dt : ℚ) := by
  have hmap : exceptMapM
      (processEvent 0 1 "run" (now_corrected 0 0 + ((0 : Int) : ℚ) * 86400)) [wEventRun]
      = .ok [some (1792519200, wNodeRun)] := by
    simp only [exceptMapM, processEvent_wEventRun]
  have hfe : filteredEntries 0 [wEventRun] 1 "run"
      (now_corrected 0 0 + ((0 : Int) : ℚ) * 86400) = .ok [(1792519200, wNodeRun)] := by
    simp only [filteredEntries, hmap, List.reduceOption_cons_of_some,
      List.reduceOption_nil]
  have hfind : find_next_event 0 [wEventRun] "tue" "run" 0 0 0 = .ok (some wNodeRun) := by
    simp only [find_next_event, show daysMap (lowerStr "tue") = some 1 from rfl, hfe,
      sortByKey, insertByKey]
  exact ⟨hfind, find_next_event_sound 0 [wEventRun] "tue" "run" 0 0 0 wNodeRun hfind⟩

/-- Witness for C6: on a two-event list whose entries share the same
start instant the selector returns the first, and the earliest-with-
stable-tie-breaking characterisation holds at that input. -/
theorem find_next_event_earliest_witness :
    find_next_event 0 [wEventRun, wEventLate] "tue" "run" 0 0 0 = .ok (some wNodeRun) ∧
    ∃ (target_day : Nat) (l : List (Int × Json)) (i : Nat) (hi : i < l.length) (d : Int),
      daysMap (lowerStr "tue") = some target_day ∧
      filteredEntries 0 [wEventRun, wEventLate] target_day "run"
        (now_corrected 0 0 + ((0 : Int) : ℚ) * 86400) = .ok l ∧
      l.get ⟨i, hi⟩ = (d, wNodeRun) ∧ (∀ p ∈ l, d ≤ p.1) ∧
      (∀ j (hj : j < i), d < (l.get ⟨j, Nat.lt_trans hj hi⟩).1) := by
  have hmap : exceptMapM
      (processEvent 0 1 "run" (now_corrected 0 0 + ((0 : Int) : ℚ) * 86400))
      [wEventRun, wEventLate]
      = .ok [some (1792519200, wNodeRun), some (1792519200, wNodeLate)] := by
    simp only [exceptMapM, processEvent_wEventRun, processEvent_wEventLate]
  have hfe : filteredEntries 0 [wEventRun, wEventLate] 1 "run"
      (now_corrected 0 0 + ((0 : Int) : ℚ) * 86400)
      = .ok [(1792519200, wNodeRun), (1792519200, wNodeLate)] := by
    simp only [filteredEntries, hmap, List.reduceOption_cons_of_some,
      List.reduceOption_nil]
  have hfind : find_next_event 0 [wEventRun, wEventLate] "tue" "run" 0 0 0
      = .ok (some wNodeRun) := by
    simp only [find_next_event, show daysMap (lowerStr "tue") = some 1 from rfl, hfe,
      sortByKey, insertByKey]
    norm_num
  exact ⟨hfind, find_next_event_earliest 0 [wEventRun, wEventLate] "tue" "run" 0 0 0
    wNodeRun hfind⟩

end Meetup
